import Mathlib

/-!
Shallow embedding of the state-diffing core of `hyperliquid_monitor.py`
(class `HyperliquidMonitor`): position change detection (`check_positions`),
fill deduplication (`check_fills`), message formatting
(`format_position_message`, the inline closed-position message), and the
per-cycle orchestration (`run_check`).

Modelling choices:
- Numeric fields (`szi`, `entryPx`, ...) arrive from the API as decimal
  strings and pass through Python `float`; they are modelled as `Option ℚ`
  (`none` = key absent from the dict).  Python `float('N/A')` — which the
  code hits when `szi` is absent, because `position.get('szi', 'N/A')` is
  converted with `float(size)` — is modelled as an `Except.error`.
- Python dicts keyed by coin are modelled as association lists with
  insert-or-update semantics preserving insertion order (`dictInsert`),
  which is exactly Python dict iteration order.
- The fill-id set `previous_fills_ids` is a `Finset String`; `str(tid)` with
  the truthiness test `if tid:` keeps only present, non-empty identifiers.
- Network effects are abstracted: `run_check` receives the two fetch results
  as `Option` values (`none` = the fetch raised and the getter returned
  `None`, or the value was falsy) and returns the events each detector
  emitted instead of sending them.
-/

/-- One position record, the inner `position` dict of an `assetPositions`
entry.  Fields the monitor reads; `none` models an absent key. -/
structure Position where
  coin : String
  szi : Option ℚ
  entryPx : Option ℚ
  leverageValue : Option ℚ
  positionValue : Option ℚ
  unrealizedPnl : Option ℚ
deriving DecidableEq, Repr

/-- The user-state dict returned by `info.user_state`; the monitor only reads
the `assetPositions` key (`none` = key absent, which makes
`check_positions` return immediately). -/
structure UserState where
  assetPositions : Option (List Position)
deriving DecidableEq, Repr

/-- One fill record from `info.user_fills`.  `tid` is `none` when the key is
absent; `some ""` is an empty identifier (both are falsy in Python). -/
structure Fill where
  tid : Option String
  coin : Option String
  side : Option String
  px : Option ℚ
  sz : Option ℚ
  fee : Option ℚ
  time : Option ℕ
deriving DecidableEq, Repr

/-- The mutable monitor state: `self.previous_positions`,
`self.previous_fills_ids`, `self.is_first_run`. -/
structure MonitorState where
  previous_positions : List (String × Position)
  previous_fills_ids : Finset String
  is_first_run : Bool
deriving DecidableEq

/-- The state the constructor sets up: empty dict, empty set, first run. -/
def initialState : MonitorState :=
  { previous_positions := [], previous_fills_ids := ∅, is_first_run := true }

/-- A position change event, one per notification `check_positions` sends.
`opened`/`modified` carry the data `format_position_message` receives;
`closed` carries exactly the data the inline closed-message uses (the coin
and the previous `szi`). -/
inductive PosEvent where
  | opened (coin : String) (position : Position)
  | modified (coin : String) (position : Position) (old_size new_size : ℚ)
  | closed (coin : String) (previous_szi : Option ℚ)
deriving DecidableEq, Repr

/-- The coin a position event is about. -/
def eventCoin : PosEvent → String
  | .opened c _ => c
  | .modified c _ _ _ => c
  | .closed c _ => c

/-- Whether an event is a `closed` event. -/
def PosEvent.isClosed : PosEvent → Bool
  | .closed _ _ => true
  | _ => false

/-- Whether an event is a `modified` event for the given coin. -/
def isModifiedFor (k : String) : PosEvent → Bool
  | .modified c _ _ _ => c = k
  | _ => false

/-- Whether an event is a `closed` event for the given coin. -/
def isClosedFor (k : String) : PosEvent → Bool
  | .closed c _ => c = k
  | _ => false

/-- Python dict insert-or-update: updating an existing key keeps its
insertion position; a new key is appended. -/
def dictInsert (d : List (String × Position)) (kv : String × Position) :
    List (String × Position) :=
  if d.any (fun p => p.1 == kv.1) then
    d.map (fun p => if p.1 == kv.1 then kv else p)
  else d ++ [kv]

/-- Python dict lookup (`d[k]` / `d.get(k)`): first (unique) binding. -/
def dictGet (d : List (String × Position)) (k : String) : Option Position :=
  (d.find? (fun p => p.1 == k)).map Prod.snd

/-- Python dict membership test (`k in d`). -/
def dictHas (d : List (String × Position)) (k : String) : Bool :=
  d.any (fun p => p.1 == k)

/-- The keys of a dict, in insertion order. -/
def keysOf (d : List (String × Position)) : List String := d.map Prod.fst

/-- Lines 201-206: build `current_positions` from the `assetPositions` list,
keyed by `position['position']['coin']`. -/
def buildPositions (aps : List Position) : List (String × Position) :=
  aps.foldl (fun d pos => dictInsert d (pos.coin, pos)) []

/-- Line 226: the fixed floating-point tolerance `0.0001`. -/
def EPSILON : ℚ := 1 / 10000

/-- Lines 215-229, the body of the first loop of `check_positions`: a coin
absent from the previous dict is an Opened event; a coin present in both is
a Modified event exactly when the size delta exceeds `EPSILON` (sizes read
with `.get('szi', 0)`). -/
def openedModifiedEvent (prev : List (String × Position))
    (cp : String × Position) : Option PosEvent :=
  match dictGet prev cp.1 with
  | none => some (PosEvent.opened cp.1 cp.2)
  | some oldPos =>
    let old_size := oldPos.szi.getD 0
    let new_size := cp.2.szi.getD 0
    if |old_size - new_size| > EPSILON then
      some (PosEvent.modified cp.1 cp.2 old_size new_size)
    else none

/-- Lines 231-243, the body of the second loop of `check_positions`: a coin
of the previous dict absent from the current one is a Closed event carrying
the coin and the previous `szi`. -/
def closedEvent (current_positions : List (String × Position))
    (cp : String × Position) : Option PosEvent :=
  if dictHas current_positions cp.1 then none
  else some (PosEvent.closed cp.1 cp.2.szi)

/-- Lines 191-246, `check_positions`: returns the events notified (in
notification order) and the updated state. -/
def check_positions (st : MonitorState) (current_state : UserState) :
    List PosEvent × MonitorState :=
  match current_state.assetPositions with
  | none => ([], st)
  | some aps =>
    let current_positions := buildPositions aps
    if st.is_first_run then
      ([], { st with previous_positions := current_positions })
    else
      let openedModified := current_positions.filterMap
        (openedModifiedEvent st.previous_positions)
      let closedEvents := st.previous_positions.filterMap
        (closedEvent current_positions)
      (openedModified ++ closedEvents,
       { st with previous_positions := current_positions })

/-- Python truthiness filter on a fill id (`if tid:`): keeps a present,
non-empty identifier. -/
def truthyTid : Option String → Option String
  | none => none
  | some s => if s = "" then none else some s

/-- Lines 258-263: the set of `str(tid)` over fills with a truthy `tid`. -/
def currentFillIdsOf (fills : List Fill) : Finset String :=
  (fills.filterMap (fun f => truthyTid f.tid)).toFinset

/-- Line 277: `str(fill.get('tid', ''))`. -/
def strTid (f : Fill) : String := f.tid.getD ""

/-- Lines 248-284, `check_fills`: returns the fills notified (in input
order) and the updated state. -/
def check_fills (st : MonitorState) (current_fills : List Fill) :
    List Fill × MonitorState :=
  if current_fills.isEmpty then ([], st)
  else
    let current_fill_ids := currentFillIdsOf current_fills
    if st.is_first_run then
      ([], { st with previous_fills_ids := current_fill_ids })
    else
      let new_fill_ids := current_fill_ids \ st.previous_fills_ids
      let notified :=
        if new_fill_ids = ∅ then []
        else current_fills.filter (fun f => decide (strTid f ∈ new_fill_ids))
      (notified, { st with previous_fills_ids := current_fill_ids })

/-- The result of one `run_check` cycle: events each detector notified,
whether the startup announcement was dispatched, and the new state. -/
structure CycleResult where
  posEvents : List PosEvent
  fillNotifies : List Fill
  startupAnnounced : Bool
  state : MonitorState
deriving DecidableEq

/-- Lines 286-311, `run_check`: each fetch result is `none` when the getter
returned `None` (or the value was falsy, which the callee guards treat the
same way); the first-run flag is cleared at the end of the first cycle,
together with the startup announcement. -/
def run_check (st : MonitorState) (user_state : Option UserState)
    (user_fills : Option (List Fill)) : CycleResult :=
  let pr := match user_state with
    | none => (([] : List PosEvent), st)
    | some us => check_positions st us
  let fr := match user_fills with
    | none => (([] : List Fill), pr.2)
    | some fills => check_fills pr.2 fills
  { posEvents := pr.1
    fillNotifies := fr.1
    startupAnnounced := fr.2.is_first_run
    state := if fr.2.is_first_run then { fr.2 with is_first_run := false }
             else fr.2 }

/-- Rendering of an optional numeric field: `position.get(key, 'N/A')`. -/
def optNum : Option ℚ → String
  | none => "N/A"
  | some q => toString q

/-- Line 151: `address[:8] + '...' + address[-6:]`. -/
def redactAddress (address : String) : String :=
  address.take 8 ++ "..." ++ address.takeRight 6

/-- Python `float(size)` where `size = position.get('szi', 'N/A')`: raises
`ValueError` when the key is absent (the default `'N/A'` is not a number). -/
def pyFloatOfSzi : Option ℚ → Except String ℚ
  | none => Except.error "could not convert string to float: N/A"
  | some q => Except.ok q

/-- Lines 123-154, `format_position_message`.  `now` stands for the
wall-clock timestamp taken at format time. -/
def format_position_message (address coin : String) (position : Position)
    (action : String) (now : String) : Except String String :=
  match pyFloatOfSzi position.szi with
  | Except.error e => Except.error e
  | Except.ok size =>
    let side := if size > 0 then "LONG" else if size < 0 then "SHORT"
                else "NEUTRAL"
    Except.ok ("<b>Position " ++ action.toUpper ++ "</b>\n\n"
      ++ "<b>Asset:</b> " ++ coin ++ "\n"
      ++ "<b>Side:</b> " ++ side ++ "\n"
      ++ "<b>Size:</b> " ++ toString |size| ++ "\n"
      ++ "<b>Entry Price:</b> $" ++ optNum position.entryPx ++ "\n"
      ++ "<b>Leverage:</b> " ++ optNum position.leverageValue ++ "x\n"
      ++ "<b>Position Value:</b> $" ++ optNum position.positionValue ++ "\n"
      ++ "<b>Unrealized PnL:</b> $" ++ optNum position.unrealizedPnl ++ "\n"
      ++ "\n<b>Address:</b> <code>" ++ redactAddress address ++ "</code>"
      ++ "\n<b>Time:</b> " ++ now)

/-- Lines 236-240: the inline message for a closed position (emoji prefix
omitted).  It reads only the coin and `old_position.get('szi', 'N/A')`. -/
def closedMessage (address coin : String) (old_position : Position)
    (now : String) : String :=
  "<b>Position CLOSED</b>\n\n"
  ++ "<b>Asset:</b> " ++ coin ++ "\n"
  ++ "<b>Previous Size:</b> " ++ optNum old_position.szi ++ "\n"
  ++ "\n<b>Address:</b> <code>" ++ redactAddress address ++ "</code>"
  ++ "\n<b>Time:</b> " ++ now

/-- A fill with only a trade id (the other keys are irrelevant to
deduplication). -/
def mkFill (t : Option String) : Fill :=
  { tid := t, coin := none, side := none, px := none, sz := none,
    fee := none, time := none }

/-- A position with a coin and a signed size only. -/
def samplePos (c : String) (q : ℚ) : Position :=
  { coin := c, szi := some q, entryPx := none, leverageValue := none,
    positionValue := none, unrealizedPnl := none }

/-- A position record whose `szi` key is absent. -/
def posNoSzi : Position :=
  { coin := "BTC", szi := none, entryPx := none, leverageValue := none,
    positionValue := none, unrealizedPnl := none }

/-- A position record with a size but all other numeric keys absent. -/
def posOnlySzi : Position :=
  { coin := "BTC", szi := some (3/2), entryPx := none, leverageValue := none,
    positionValue := none, unrealizedPnl := none }

/-- A steady state that has already seen fill id "a". -/
def stSeenA : MonitorState :=
  { previous_positions := [], previous_fills_ids := {"a"},
    is_first_run := false }

/-- A steady state with an empty position baseline. -/
def stEmptyPrev : MonitorState :=
  { previous_positions := [], previous_fills_ids := ∅,
    is_first_run := false }

/-- A steady state holding one BTC position of size 1.5. -/
def prevBTC : MonitorState :=
  { previous_positions := buildPositions [samplePos "BTC" (3/2)],
    previous_fills_ids := ∅, is_first_run := false }

/-- A steady state holding one BTC position of size 1.5 and seen id t1. -/
def stIdem : MonitorState :=
  { previous_positions := buildPositions [samplePos "BTC" (3/2)],
    previous_fills_ids := {"t1"}, is_first_run := false }

/-- A steady state that has already seen fill id "101". -/
def stSeen101 : MonitorState :=
  { previous_positions := [], previous_fills_ids := {"101"},
    is_first_run := false }

theorem mem_keysOf {d : List (String × Position)} {k : String} :
    k ∈ keysOf d ↔ ∃ p ∈ d, p.1 = k := by
  simp [keysOf, List.mem_map]

theorem dictHas_iff {d : List (String × Position)} {k : String} :
    dictHas d k = true ↔ k ∈ keysOf d := by
  simp [dictHas, List.any_eq_true, mem_keysOf]

theorem dictHas_eq_false {d : List (String × Position)} {k : String} :
    dictHas d k = false ↔ k ∉ keysOf d := by
  rw [← dictHas_iff]
  cases dictHas d k <;> simp

theorem dictGet_eq_none_iff {d : List (String × Position)} {k : String} :
    dictGet d k = none ↔ k ∉ keysOf d := by
  rw [dictGet, Option.map_eq_none', List.find?_eq_none, mem_keysOf]
  constructor
  · rintro h ⟨p, hp, hpk⟩
    exact h p hp (by simp [hpk])
  · intro h p hp hbeq
    exact h ⟨p, hp, by simpa using hbeq⟩

theorem dictGet_find? {d : List (String × Position)} {k : String}
    {p : Position} (h : dictGet d k = some p) :
    d.find? (fun x => x.1 == k) = some (k, p) := by
  rw [dictGet, Option.map_eq_some'] at h
  obtain ⟨cp, hcp, hsnd⟩ := h
  have hfst : cp.1 = k := by
    have := List.find?_some hcp
    simpa using this
  rw [hcp]
  cases cp
  simp_all

theorem find?_self_of_nodup {d : List (String × Position)}
    (hnd : (keysOf d).Nodup) {cp : String × Position} (h : cp ∈ d) :
    d.find? (fun x => x.1 == cp.1) = some cp := by
  induction d with
  | nil => cases h
  | cons a t ih =>
    have hnd' : (keysOf t).Nodup := (List.nodup_cons.mp hnd).2
    have hhead : a.1 ∉ keysOf t := (List.nodup_cons.mp hnd).1
    rcases List.mem_cons.mp h with h | h
    · subst h
      simp [List.find?_cons]
    · have hne : a.1 ≠ cp.1 := by
        intro he
        exact hhead (he ▸ mem_keysOf.mpr ⟨cp, h, rfl⟩)
      rw [List.find?_cons]
      have : (a.1 == cp.1) = false := beq_eq_false_iff_ne.mpr hne
      rw [this]
      exact ih hnd' h

theorem dictInsert_keys (d : List (String × Position))
    (kv : String × Position) :
    keysOf (dictInsert d kv) =
      if d.any (fun p => p.1 == kv.1) then keysOf d
      else keysOf d ++ [kv.1] := by
  unfold dictInsert keysOf
  by_cases h : d.any (fun p => p.1 == kv.1)
  · rw [if_pos h, if_pos h, List.map_map]
    refine List.map_congr_left ?_
    intro p _
    by_cases hpk : p.1 = kv.1
    · simp [Function.comp, hpk]
    · have hb : (p.1 == kv.1) = false := beq_eq_false_iff_ne.mpr hpk
      simp [Function.comp, hb]
  · rw [if_neg h, if_neg h, List.map_append]
    rfl

theorem buildPositions_keys_nodup (aps : List Position) :
    (keysOf (buildPositions aps)).Nodup := by
  suffices h : ∀ d : List (String × Position), (keysOf d).Nodup →
      (keysOf (aps.foldl (fun d pos => dictInsert d (pos.coin, pos)) d)).Nodup
    from h [] (by simp [keysOf])
  induction aps with
  | nil => intro d hd; simpa using hd
  | cons a t ih =>
    intro d hd
    rw [List.foldl_cons]
    apply ih
    rw [dictInsert_keys]
    by_cases h : d.any (fun p => p.1 == (a.coin, a).1)
    · rwa [if_pos h]
    · rw [if_neg h, List.nodup_append]
      refine ⟨hd, List.nodup_singleton _, ?_⟩
      intro x hx hx'
      have hxa : x = a.coin := by simpa using hx'
      obtain ⟨p, hp, hpk⟩ := mem_keysOf.mp hx
      rw [List.any_eq_true] at h
      exact h ⟨p, hp, by simp [hpk, hxa]⟩

theorem filterMap_filter_eq_nil (l : List (String × Position))
    (f : String × Position → Option PosEvent) (q : PosEvent → Bool)
    (h : ∀ cp ∈ l, ∀ e, f cp = some e → q e = false) :
    (l.filterMap f).filter q = [] := by
  induction l with
  | nil => rfl
  | cons a t ih =>
    rw [List.filterMap_cons]
    cases hfa : f a with
    | none => exact ih (fun cp hcp e he => h cp (List.mem_cons_of_mem _ hcp) e he)
    | some e =>
      rw [List.filter_cons]
      have hqe : q e = false := h a (List.mem_cons_self _ _) e hfa
      rw [hqe]
      simp only [Bool.false_eq_true, if_false]
      exact ih (fun cp hcp e he => h cp (List.mem_cons_of_mem _ hcp) e he)

theorem filterMap_filter_found (l : List (String × Position))
    (f : String × Position → Option PosEvent) (q : PosEvent → Bool)
    (k : String) (hnd : (keysOf l).Nodup)
    (hq : ∀ cp, cp.1 ≠ k → ∀ e, f cp = some e → q e = false)
    {cp : String × Position}
    (hfind : l.find? (fun x => x.1 == k) = some cp) :
    (l.filterMap f).filter q = ((f cp).toList).filter q := by
  induction l with
  | nil => exact Option.noConfusion hfind
  | cons a t ih =>
    have hnd' : (keysOf t).Nodup := (List.nodup_cons.mp hnd).2
    have hhead : a.1 ∉ keysOf t := (List.nodup_cons.mp hnd).1
    by_cases hak : a.1 = k
    · have hb : (a.1 == k) = true := beq_iff_eq.mpr hak
      rw [List.find?_cons, hb] at hfind
      have hcp : a = cp := Option.some.inj hfind
      subst hcp
      have htail : (t.filterMap f).filter q = [] := by
        refine filterMap_filter_eq_nil t f q ?_
        intro cp hcp e he
        refine hq cp ?_ e he
        intro hck
        exact hhead (hak ▸ hck ▸ mem_keysOf.mpr ⟨cp, hcp, rfl⟩)
      rw [List.filterMap_cons]
      cases hfa : f a with
      | none =>
        show (t.filterMap f).filter q = List.filter q []
        rw [htail]
        rfl
      | some e =>
        show (e :: t.filterMap f).filter q = List.filter q [e]
        rw [List.filter_cons, List.filter_cons, htail]
        cases hqe : q e <;> rfl
    · have hb : (a.1 == k) = false := beq_eq_false_iff_ne.mpr hak
      rw [List.find?_cons, hb] at hfind
      have hfind2 : t.find? (fun x => x.1 == k) = some cp := hfind
      rw [List.filterMap_cons]
      cases hfa : f a with
      | none => exact ih hnd' hfind2
      | some e =>
        have hqe : q e = false := hq a hak e hfa
        show (e :: t.filterMap f).filter q = ((f cp).toList).filter q
        rw [List.filter_cons, hqe]
        simp only [Bool.false_eq_true, if_false]
        exact ih hnd' hfind2

theorem filterMap_coin_sublist (l : List (String × Position))
    (f : String × Position → Option PosEvent)
    (hf : ∀ cp ∈ l, ∀ e, f cp = some e → eventCoin e = cp.1) :
    List.Sublist ((l.filterMap f).map eventCoin) (keysOf l) := by
  induction l with
  | nil => simp [keysOf]
  | cons a t ih =>
    rw [List.filterMap_cons]
    have hkeys : keysOf (a :: t) = a.1 :: keysOf t := rfl
    rw [hkeys]
    cases hfa : f a with
    | none =>
      exact List.Sublist.cons _
        (ih (fun cp hcp e he => hf cp (List.mem_cons_of_mem _ hcp) e he))
    | some e =>
      rw [List.map_cons, hf a (List.mem_cons_self _ _) e hfa]
      exact List.Sublist.cons₂ _
        (ih (fun cp hcp e he => hf cp (List.mem_cons_of_mem _ hcp) e he))

theorem filterMap_some_eq_map {α β : Type} (l : List α) (f : α → β) :
    (l.filterMap fun a => some (f a)) = l.map f := by
  induction l with
  | nil => rfl
  | cons a t ih => rw [List.filterMap_cons, List.map_cons]; exact congrArg _ ih

theorem check_fills_previous_positions (st : MonitorState)
    (fills : List Fill) :
    (check_fills st fills).2.previous_positions = st.previous_positions := by
  unfold check_fills
  by_cases h : fills.isEmpty <;> by_cases h2 : st.is_first_run <;> simp [h, h2]

theorem check_positions_previous_fills_ids (st : MonitorState)
    (us : UserState) :
    (check_positions st us).2.previous_fills_ids = st.previous_fills_ids := by
  unfold check_positions
  cases us.assetPositions with
  | none => rfl
  | some aps => by_cases h : st.is_first_run <;> simp [h]

theorem check_positions_is_first_run (st : MonitorState) (us : UserState) :
    (check_positions st us).2.is_first_run = st.is_first_run := by
  unfold check_positions
  cases us.assetPositions with
  | none => rfl
  | some aps => by_cases h : st.is_first_run <;> simp [h]

theorem strTid_of_not_truthy {f : Fill} (h : truthyTid f.tid = none) :
    strTid f = "" := by
  unfold truthyTid at h
  unfold strTid
  cases htid : f.tid with
  | none => rfl
  | some s =>
    rw [htid] at h
    by_cases hs : s = ""
    · simp [hs]
    · simp [hs] at h

theorem not_mem_currentFillIdsOf_empty (fills : List Fill) :
    "" ∉ currentFillIdsOf fills := by
  unfold currentFillIdsOf
  rw [List.mem_toFinset, List.mem_filterMap]
  rintro ⟨f, _, hsome⟩
  cases htid : f.tid with
  | none => rw [htid] at hsome; exact Option.noConfusion hsome
  | some s =>
    rw [htid] at hsome
    have hsome2 : (if s = "" then (none : Option String) else some s)
        = some "" := hsome
    by_cases hs : s = ""
    · rw [if_pos hs] at hsome2
      exact Option.noConfusion hsome2
    · rw [if_neg hs] at hsome2
      exact hs (Option.some.inj hsome2)

theorem flipState_is_first_run (st : MonitorState) :
    (if st.is_first_run then { st with is_first_run := false }
     else st).is_first_run = false := by
  by_cases h : st.is_first_run <;> simp [h]

theorem flipState_previous_positions (st : MonitorState) :
    (if st.is_first_run then { st with is_first_run := false }
     else st).previous_positions = st.previous_positions := by
  by_cases h : st.is_first_run <;> simp [h]

theorem flipState_previous_fills_ids (st : MonitorState) :
    (if st.is_first_run then { st with is_first_run := false }
     else st).previous_fills_ids = st.previous_fills_ids := by
  by_cases h : st.is_first_run <;> simp [h]

/-- C1: the claim fails on the code.  Starting from a state that has seen
fill id "a", one poll whose window only holds fill "b" does not keep "a" in
the stored set (the set is not the union of old and new identifiers), and a
later poll in which fill "a" reappears notifies it again. -/
theorem fills_renotify_counterexample :
    (check_fills stSeenA [mkFill (some "b")]).2.previous_fills_ids ≠
      stSeenA.previous_fills_ids ∪ currentFillIdsOf [mkFill (some "b")] ∧
    (check_fills (check_fills stSeenA [mkFill (some "b")]).2
        [mkFill (some "a")]).1 = [mkFill (some "a")] := by
  constructor
  · decide
  · decide

/-- C1 (amended): on every non-first cycle with a non-empty fill list,
`check_fills` replaces the stored seen-fill-id set with the identifiers of
the current fills; identifiers absent from the current window are dropped,
so only the immediately preceding window suppresses re-notification. -/
theorem fills_seen_replaced (st : MonitorState) (fills : List Fill)
    (h1 : st.is_first_run = false) (h2 : fills ≠ []) :
    (check_fills st fills).2.previous_fills_ids = currentFillIdsOf fills := by
  obtain ⟨prev, fids, fr⟩ := st
  have hfr : fr = false := h1
  subst hfr
  cases fills with
  | nil => exact absurd rfl h2
  | cons f t => rfl

/-- Witness for the amended C1 at a concrete state and fill list. -/
theorem fills_seen_replaced_witness :
    (check_fills stSeenA [mkFill (some "b")]).2.previous_fills_ids =
      currentFillIdsOf [mkFill (some "b")] :=
  fills_seen_replaced stSeenA [mkFill (some "b")] rfl (by decide)

/-- C2: formatting a position whose `szi` key is absent raises (Python
`float('N/A')`, a `ValueError`) instead of rendering the "N/A" marker,
while the other absent numeric fields do render "N/A" inside a successful
message once a size is present. -/
theorem format_raises_on_missing_szi :
    format_position_message "0xcb58b8f5ec6d47985f0728465c25a08ef9ad2c7b"
        "BTC" posNoSzi "opened" "2026-10-12 00:00:00 UTC" =
      Except.error "could not convert string to float: N/A" ∧
    ∃ msg, format_position_message "0xcb58b8f5ec6d47985f0728465c25a08ef9ad2c7b"
        "BTC" posOnlySzi "opened" "2026-10-12 00:00:00 UTC" =
      Except.ok msg :=
  ⟨rfl, ⟨_, rfl⟩⟩

/-- C3: the claim fails on the code.  With an empty previous snapshot and
`assetPositions` listing ETH before BTC, the Opened events come out in
mapping insertion order ETH, BTC — not in ascending symbol order, since
"BTC" sorts before "ETH". -/
theorem positions_not_sorted_counterexample :
    ((check_positions stEmptyPrev
        ⟨some [samplePos "ETH" 1, samplePos "BTC" 2]⟩).1.map eventCoin)
      = ["ETH", "BTC"] ∧ "BTC" < "ETH" := by
  constructor
  · decide
  · rw [String.lt_iff_toList_lt]
    decide

/-- C4: on the very first cycle, with any well-formed snapshot and any
non-empty fill list, `run_check` emits zero position events and zero fill
notifications, stores the observed snapshot and fill-identifier set as the
new baseline, dispatches the startup announcement, and clears the
first-run flag. -/
theorem first_cycle_baseline (st : MonitorState) (aps : List Position)
    (fills : List Fill) (h1 : st.is_first_run = true) (h2 : fills ≠ []) :
    (run_check st (some ⟨some aps⟩) (some fills)).posEvents = [] ∧
    (run_check st (some ⟨some aps⟩) (some fills)).fillNotifies = [] ∧
    (run_check st (some ⟨some aps⟩) (some fills)).state.previous_positions
      = buildPositions aps ∧
    (run_check st (some ⟨some aps⟩) (some fills)).state.previous_fills_ids
      = currentFillIdsOf fills ∧
    (run_check st (some ⟨some aps⟩) (some fills)).startupAnnounced = true ∧
    (run_check st (some ⟨some aps⟩) (some fills)).state.is_first_run
      = false := by
  obtain ⟨prev, fids, fr⟩ := st
  have hfr : fr = true := h1
  subst hfr
  cases fills with
  | nil => exact absurd rfl h2
  | cons f t => exact ⟨rfl, rfl, rfl, rfl, rfl, rfl⟩

/-- Witness for C4 at a concrete first-cycle state. -/
theorem first_cycle_baseline_witness :
    (run_check initialState (some ⟨some [samplePos "BTC" (3/2)]⟩)
        (some [mkFill (some "t1")])).posEvents = [] ∧
    (run_check initialState (some ⟨some [samplePos "BTC" (3/2)]⟩)
        (some [mkFill (some "t1")])).fillNotifies = [] ∧
    (run_check initialState (some ⟨some [samplePos "BTC" (3/2)]⟩)
        (some [mkFill (some "t1")])).state.previous_positions
      = buildPositions [samplePos "BTC" (3/2)] ∧
    (run_check initialState (some ⟨some [samplePos "BTC" (3/2)]⟩)
        (some [mkFill (some "t1")])).state.previous_fills_ids
      = currentFillIdsOf [mkFill (some "t1")] ∧
    (run_check initialState (some ⟨some [samplePos "BTC" (3/2)]⟩)
        (some [mkFill (some "t1")])).startupAnnounced = true ∧
    (run_check initialState (some ⟨some [samplePos "BTC" (3/2)]⟩)
        (some [mkFill (some "t1")])).state.is_first_run = false :=
  first_cycle_baseline initialState [samplePos "BTC" (3/2)]
    [mkFill (some "t1")] rfl (by decide)

/-- C7: when the position fetch fails (the data client returned `None`),
the cycle emits no position events and leaves the stored previous snapshot
untouched, whatever the fill fetch did; independently, when the fill fetch
fails, the cycle notifies no fills and leaves the seen-fill-id set
untouched, whatever the position fetch did. -/
theorem fetch_failure_skips (st : MonitorState) :
    (∀ uf : Option (List Fill),
      (run_check st none uf).posEvents = [] ∧
      (run_check st none uf).state.previous_positions
        = st.previous_positions) ∧
    (∀ ous : Option UserState,
      (run_check st ous none).fillNotifies = [] ∧
      (run_check st ous none).state.previous_fills_ids
        = st.previous_fills_ids) := by
  constructor
  · intro uf
    refine ⟨rfl, ?_⟩
    cases uf with
    | none => exact flipState_previous_positions st
    | some fills =>
      exact (flipState_previous_positions _).trans
        (check_fills_previous_positions st fills)
  · intro ous
    refine ⟨?_, ?_⟩
    · cases ous <;> rfl
    · cases ous with
      | none => exact flipState_previous_fills_ids st
      | some us =>
        exact (flipState_previous_fills_ids _).trans
          (check_positions_previous_fills_ids st us)

/-- C10: after any `run_check` call the first-run flag is false, whatever
the fetch outcomes; in particular after a first cycle in which both fetches
failed, the baseline is still the empty snapshot, and the next cycle with a
successful position fetch emits one Opened event per coin of the current
snapshot, in mapping order. -/
theorem first_flag_cleared_then_open_events :
    (∀ (st : MonitorState) (ous : Option UserState)
        (ouf : Option (List Fill)),
      (run_check st ous ouf).state.is_first_run = false) ∧
    (run_check initialState none none).state.previous_positions = [] ∧
    (∀ (aps : List Position) (ouf : Option (List Fill)),
      (run_check (run_check initialState none none).state
          (some ⟨some aps⟩) ouf).posEvents
        = (buildPositions aps).map (fun cp => PosEvent.opened cp.1 cp.2)) := by
  refine ⟨?_, rfl, ?_⟩
  · intro st ous ouf
    exact flipState_is_first_run _
  · intro aps ouf
    show ((buildPositions aps).filterMap
        (fun cp => some (PosEvent.opened cp.1 cp.2)) ++ [])
      = (buildPositions aps).map (fun cp => PosEvent.opened cp.1 cp.2)
    rw [List.append_nil]
    exact filterMap_some_eq_map _ _

theorem openedModifiedEvent_cases (prev : List (String × Position))
    (cp : String × Position) (e : PosEvent)
    (h : openedModifiedEvent prev cp = some e) :
    (dictGet prev cp.1 = none ∧ e = PosEvent.opened cp.1 cp.2) ∨
    ∃ oldPos, dictGet prev cp.1 = some oldPos ∧
      |oldPos.szi.getD 0 - cp.2.szi.getD 0| > EPSILON ∧
      e = PosEvent.modified cp.1 cp.2 (oldPos.szi.getD 0)
            (cp.2.szi.getD 0) := by
  unfold openedModifiedEvent at h
  cases hdg : dictGet prev cp.1 with
  | none =>
    rw [hdg] at h
    exact Or.inl ⟨rfl, (Option.some.inj h).symm⟩
  | some oldPos =>
    rw [hdg] at h
    have h2 : (if |oldPos.szi.getD 0 - cp.2.szi.getD 0| > EPSILON
        then some (PosEvent.modified cp.1 cp.2 (oldPos.szi.getD 0)
          (cp.2.szi.getD 0))
        else none) = some e := h
    by_cases hc : |oldPos.szi.getD 0 - cp.2.szi.getD 0| > EPSILON
    · rw [if_pos hc] at h2
      exact Or.inr ⟨oldPos, rfl, hc, (Option.some.inj h2).symm⟩
    · rw [if_neg hc] at h2
      exact Option.noConfusion h2

theorem openedModifiedEvent_of_found {prev : List (String × Position)}
    {cp : String × Position} {oldP : Position}
    (h : dictGet prev cp.1 = some oldP) :
    openedModifiedEvent prev cp =
      if |oldP.szi.getD 0 - cp.2.szi.getD 0| > EPSILON
      then some (PosEvent.modified cp.1 cp.2 (oldP.szi.getD 0)
        (cp.2.szi.getD 0))
      else none := by
  unfold openedModifiedEvent
  rw [h]

theorem closedEvent_cases (cur : List (String × Position))
    (cp : String × Position) (e : PosEvent)
    (h : closedEvent cur cp = some e) :
    dictHas cur cp.1 = false ∧ e = PosEvent.closed cp.1 cp.2.szi := by
  unfold closedEvent at h
  by_cases hc : dictHas cur cp.1 = true
  · rw [if_pos hc] at h
    exact Option.noConfusion h
  · rw [if_neg hc] at h
    exact ⟨Bool.eq_false_iff.mpr hc, (Option.some.inj h).symm⟩

/-- C3 (amended): on every non-first cycle with a well-formed snapshot, the
event sequence splits as a block of non-Closed (Opened/Modified) events
followed by a block of Closed events; the first block's coins follow the
insertion order of the current mapping and the second block's coins follow
the insertion order of the stored previous mapping — the mapping iteration
order, not ascending symbol order. -/
theorem positions_grouped_in_mapping_order (st : MonitorState)
    (aps : List Position) (h1 : st.is_first_run = false) :
    ∃ a b, (check_positions st ⟨some aps⟩).1 = a ++ b ∧
      (∀ e ∈ a, e.isClosed = false) ∧
      (∀ e ∈ b, e.isClosed = true) ∧
      List.Sublist (a.map eventCoin) (keysOf (buildPositions aps)) ∧
      List.Sublist (b.map eventCoin) (keysOf st.previous_positions) := by
  obtain ⟨prev, fids, fr⟩ := st
  have hfr : fr = false := h1
  subst hfr
  refine ⟨(buildPositions aps).filterMap (openedModifiedEvent prev),
    prev.filterMap (closedEvent (buildPositions aps)), rfl, ?_, ?_, ?_, ?_⟩
  · intro e he
    obtain ⟨cp, _, hfe⟩ := List.mem_filterMap.mp he
    rcases openedModifiedEvent_cases _ _ _ hfe with ⟨_, rfl⟩ |
      ⟨oldPos, _, _, rfl⟩ <;> rfl
  · intro e he
    obtain ⟨cp, _, hfe⟩ := List.mem_filterMap.mp he
    obtain ⟨_, rfl⟩ := closedEvent_cases _ _ _ hfe
    rfl
  · refine filterMap_coin_sublist _ _ ?_
    intro cp _ e hfe
    rcases openedModifiedEvent_cases _ _ _ hfe with ⟨_, rfl⟩ |
      ⟨oldPos, _, _, rfl⟩ <;> rfl
  · refine filterMap_coin_sublist _ _ ?_
    intro cp _ e hfe
    obtain ⟨_, rfl⟩ := closedEvent_cases _ _ _ hfe
    rfl

/-- Witness for the amended C3 at the two-coin counterexample state. -/
theorem positions_grouped_witness :
    ∃ a b, (check_positions stEmptyPrev
        ⟨some [samplePos "ETH" 1, samplePos "BTC" 2]⟩).1 = a ++ b ∧
      (∀ e ∈ a, e.isClosed = false) ∧
      (∀ e ∈ b, e.isClosed = true) ∧
      List.Sublist (a.map eventCoin)
        (keysOf (buildPositions [samplePos "ETH" 1, samplePos "BTC" 2])) ∧
      List.Sublist (b.map eventCoin)
        (keysOf stEmptyPrev.previous_positions) :=
  positions_grouped_in_mapping_order stEmptyPrev
    [samplePos "ETH" 1, samplePos "BTC" 2] rfl

/-- C6: on a non-first cycle, for a coin present in both the previous and
the current dict, the `Modified` events emitted for that coin are exactly
one event when the absolute size delta exceeds `EPSILON = 0.0001` and none
otherwise. -/
theorem modified_iff_epsilon (st : MonitorState) (aps : List Position)
    (k : String) (oldP newP : Position) (h1 : st.is_first_run = false)
    (h2 : (keysOf st.previous_positions).Nodup)
    (h3 : dictGet st.previous_positions k = some oldP)
    (h4 : dictGet (buildPositions aps) k = some newP) :
    (check_positions st ⟨some aps⟩).1.filter (isModifiedFor k) =
      if |oldP.szi.getD 0 - newP.szi.getD 0| > EPSILON then
        [PosEvent.modified k newP (oldP.szi.getD 0) (newP.szi.getD 0)]
      else [] := by
  obtain ⟨prev, fids, fr⟩ := st
  have hfr : fr = false := h1
  subst hfr
  have h3' : dictGet prev k = some oldP := h3
  show ((buildPositions aps).filterMap (openedModifiedEvent prev) ++
      prev.filterMap (closedEvent (buildPositions aps))).filter
        (isModifiedFor k) = _
  rw [List.filter_append]
  have hcl : (prev.filterMap (closedEvent (buildPositions aps))).filter
      (isModifiedFor k) = [] := by
    refine filterMap_filter_eq_nil _ _ _ ?_
    intro cp _ e he
    obtain ⟨_, rfl⟩ := closedEvent_cases _ _ _ he
    rfl
  rw [hcl, List.append_nil]
  have hq : ∀ cp : String × Position, cp.1 ≠ k → ∀ e,
      openedModifiedEvent prev cp = some e → isModifiedFor k e = false := by
    intro cp hck e he
    rcases openedModifiedEvent_cases _ _ _ he with ⟨_, rfl⟩ |
      ⟨oldPos, _, _, rfl⟩
    · rfl
    · simp [isModifiedFor, hck]
  have hfound := dictGet_find? h4
  rw [filterMap_filter_found (buildPositions aps) (openedModifiedEvent prev)
      (isModifiedFor k) k (buildPositions_keys_nodup aps) hq hfound]
  rw [openedModifiedEvent_of_found
      (show dictGet prev (k, newP).1 = some oldP from h3')]
  by_cases hc : |oldP.szi.getD 0 - newP.szi.getD 0| > EPSILON
  · rw [if_pos hc, if_pos hc]
    simp [isModifiedFor]
  · rw [if_neg hc, if_neg hc]
    rfl

/-- Witness for C6: with previous size 1.5, a current size of 1.5002
(delta 0.0002 > EPSILON) yields exactly one Modified event, and a current
size of 1.50005 (delta 0.00005 < EPSILON) yields none. -/
theorem modified_iff_epsilon_witness :
    (check_positions prevBTC
        ⟨some [samplePos "BTC" (7501/5000)]⟩).1.filter (isModifiedFor "BTC")
      = [PosEvent.modified "BTC" (samplePos "BTC" (7501/5000)) (3/2)
          (7501/5000)] ∧
    (check_positions prevBTC
        ⟨some [samplePos "BTC" (30001/20000)]⟩).1.filter (isModifiedFor "BTC")
      = [] := by
  constructor
  · have h := modified_iff_epsilon prevBTC [samplePos "BTC" (7501/5000)]
      "BTC" (samplePos "BTC" (3/2)) (samplePos "BTC" (7501/5000)) rfl
      (by decide) rfl rfl
    rw [h, if_pos]
    · rfl
    · show |(3 : ℚ)/2 - 7501/5000| > 1/10000
      rw [gt_iff_lt, lt_abs]
      norm_num
  · have h := modified_iff_epsilon prevBTC [samplePos "BTC" (30001/20000)]
      "BTC" (samplePos "BTC" (3/2)) (samplePos "BTC" (30001/20000)) rfl
      (by decide) rfl rfl
    rw [h, if_neg]
    show ¬ |(3 : ℚ)/2 - 30001/20000| > 1/10000
    rw [gt_iff_lt, not_lt, abs_le]
    constructor <;> norm_num

/-- C8: on a non-first cycle, a coin of the previous dict absent from the
current one yields exactly one Closed event, carrying the coin and the last
known size; the closed-position message depends only on the coin and the
previous `szi` (it has no entry-price or leverage fields). -/
theorem closed_event_exactly_once (st : MonitorState) (aps : List Position)
    (k : String) (oldP : Position) (h1 : st.is_first_run = false)
    (h2 : (keysOf st.previous_positions).Nodup)
    (h3 : dictGet st.previous_positions k = some oldP)
    (h4 : dictHas (buildPositions aps) k = false) :
    (check_positions st ⟨some aps⟩).1.filter (isClosedFor k)
      = [PosEvent.closed k oldP.szi] ∧
    ∀ (p q : Position) (address now : String), p.szi = q.szi →
      closedMessage address k p now = closedMessage address k q now := by
  constructor
  · obtain ⟨prev, fids, fr⟩ := st
    have hfr : fr = false := h1
    subst hfr
    have h3' : dictGet prev k = some oldP := h3
    show ((buildPositions aps).filterMap (openedModifiedEvent prev) ++
        prev.filterMap (closedEvent (buildPositions aps))).filter
          (isClosedFor k) = _
    rw [List.filter_append]
    have hom : ((buildPositions aps).filterMap
        (openedModifiedEvent prev)).filter (isClosedFor k) = [] := by
      refine filterMap_filter_eq_nil _ _ _ ?_
      intro cp _ e he
      rcases openedModifiedEvent_cases _ _ _ he with ⟨_, rfl⟩ |
        ⟨oldPos, _, _, rfl⟩ <;> rfl
    rw [hom, List.nil_append]
    have hq : ∀ cp : String × Position, cp.1 ≠ k → ∀ e,
        closedEvent (buildPositions aps) cp = some e →
        isClosedFor k e = false := by
      intro cp hck e he
      obtain ⟨_, rfl⟩ := closedEvent_cases _ _ _ he
      simp [isClosedFor, hck]
    have hfound := dictGet_find? h3'
    rw [filterMap_filter_found prev (closedEvent (buildPositions aps))
        (isClosedFor k) k h2 hq hfound]
    have hce : closedEvent (buildPositions aps) (k, oldP)
        = some (PosEvent.closed k oldP.szi) := by
      unfold closedEvent
      show (if dictHas (buildPositions aps) k = true then none
        else some (PosEvent.closed k oldP.szi)) = _
      rw [h4]
      simp
    rw [hce]
    simp [isClosedFor]
  · intro p q address now h
    unfold closedMessage
    rw [h]

/-- Witness for C8: closing the single BTC position yields exactly one
Closed event carrying the last size 1.5, and two positions with the same
size format to the same closed message. -/
theorem closed_event_exactly_once_witness :
    (check_positions prevBTC ⟨some []⟩).1.filter (isClosedFor "BTC")
      = [PosEvent.closed "BTC" (samplePos "BTC" (3/2)).szi] ∧
    ∀ (p q : Position) (address now : String), p.szi = q.szi →
      closedMessage address "BTC" p now = closedMessage address "BTC" q now :=
  closed_event_exactly_once prevBTC [] "BTC" (samplePos "BTC" (3/2)) rfl
    (by decide) rfl rfl

theorem check_fills_no_new (st : MonitorState) (fills : List Fill)
    (h1 : st.is_first_run = false)
    (h3 : currentFillIdsOf fills = st.previous_fills_ids) :
    (check_fills st fills).1 = [] := by
  obtain ⟨prev, fids, fr⟩ := st
  have hfr : fr = false := h1
  subst hfr
  have h3' : currentFillIdsOf fills = fids := h3
  cases fills with
  | nil => rfl
  | cons f t =>
    show (if currentFillIdsOf (f :: t) \ fids = ∅ then ([] : List Fill)
          else (f :: t).filter
            (fun x => decide (strTid x ∈ currentFillIdsOf (f :: t) \ fids)))
      = []
    rw [h3', Finset.sdiff_self, if_pos rfl]

/-- C9: a non-first cycle whose current snapshot rebuilds exactly the
stored previous dict and whose current fill identifiers equal the stored
seen set produces zero position events and zero fill notifications. -/
theorem idempotent_cycle (st : MonitorState) (aps : List Position)
    (fills : List Fill) (h1 : st.is_first_run = false)
    (h2 : st.previous_positions = buildPositions aps)
    (h3 : currentFillIdsOf fills = st.previous_fills_ids) :
    (run_check st (some ⟨some aps⟩) (some fills)).posEvents = [] ∧
    (run_check st (some ⟨some aps⟩) (some fills)).fillNotifies = [] := by
  obtain ⟨prev, fids, fr⟩ := st
  have hfr : fr = false := h1
  subst hfr
  have hprev : prev = buildPositions aps := h2
  subst hprev
  have h3' : currentFillIdsOf fills = fids := h3
  constructor
  · show ((buildPositions aps).filterMap
        (openedModifiedEvent (buildPositions aps)) ++
      (buildPositions aps).filterMap (closedEvent (buildPositions aps))) = []
    have hom : (buildPositions aps).filterMap
        (openedModifiedEvent (buildPositions aps)) = [] := by
      rw [List.filterMap_eq_nil_iff]
      intro cp hcp
      have hfind := find?_self_of_nodup (buildPositions_keys_nodup aps) hcp
      have hget : dictGet (buildPositions aps) cp.1 = some cp.2 := by
        unfold dictGet
        rw [hfind]
        rfl
      rw [openedModifiedEvent_of_found hget, if_neg]
      simp only [sub_self, abs_zero, gt_iff_lt, EPSILON]
      norm_num
    have hcl : (buildPositions aps).filterMap
        (closedEvent (buildPositions aps)) = [] := by
      rw [List.filterMap_eq_nil_iff]
      intro cp hcp
      have hhas : dictHas (buildPositions aps) cp.1 = true :=
        dictHas_iff.mpr (mem_keysOf.mpr ⟨cp, hcp, rfl⟩)
      unfold closedEvent
      rw [hhas]
      simp
    rw [hom, hcl]
    rfl
  · exact check_fills_no_new ⟨buildPositions aps, fids, false⟩ fills rfl h3'

/-- Witness for C9 at a concrete one-position, one-fill steady state. -/
theorem idempotent_cycle_witness :
    (run_check stIdem (some ⟨some [samplePos "BTC" (3/2)]⟩)
        (some [mkFill (some "t1")])).posEvents = [] ∧
    (run_check stIdem (some ⟨some [samplePos "BTC" (3/2)]⟩)
        (some [mkFill (some "t1")])).fillNotifies = [] :=
  idempotent_cycle stIdem [samplePos "BTC" (3/2)] [mkFill (some "t1")]
    rfl rfl (by decide)

/-- C5: on every non-first cycle the notified fills are exactly the input
fills, in input order, whose stringified identifier lies in the set
difference of current identifiers minus previously seen ones; a fill with
a missing or empty identifier is excluded from the notify sequence and its
(empty) identifier never enters the stored seen set. -/
theorem new_fills_notified (st : MonitorState) (fills : List Fill)
    (h1 : st.is_first_run = false) :
    (check_fills st fills).1 = fills.filter (fun f =>
      decide (strTid f ∈ currentFillIdsOf fills \ st.previous_fills_ids)) ∧
    ∀ f ∈ fills, truthyTid f.tid = none →
      f ∉ (check_fills st fills).1 ∧
      strTid f ∉ (check_fills st fills).2.previous_fills_ids := by
  obtain ⟨prev, fids, fr⟩ := st
  have hfr : fr = false := h1
  subst hfr
  have hmain : (check_fills ⟨prev, fids, false⟩ fills).1
      = fills.filter (fun f =>
          decide (strTid f ∈ currentFillIdsOf fills \ fids)) := by
    cases fills with
    | nil => rfl
    | cons f t =>
      show (if currentFillIdsOf (f :: t) \ fids = ∅ then ([] : List Fill)
            else (f :: t).filter (fun x =>
              decide (strTid x ∈ currentFillIdsOf (f :: t) \ fids)))
        = (f :: t).filter (fun x =>
            decide (strTid x ∈ currentFillIdsOf (f :: t) \ fids))
      by_cases hne : currentFillIdsOf (f :: t) \ fids = ∅
      · rw [if_pos hne, hne]
        symm
        rw [List.filter_eq_nil_iff]
        intro x _
        simp
      · rw [if_neg hne]
  refine ⟨hmain, ?_⟩
  intro f hf htruthy
  have hstr : strTid f = "" := strTid_of_not_truthy htruthy
  constructor
  · rw [hmain]
    intro hmem
    have hpred := (List.mem_filter.mp hmem).2
    have hmem2 : strTid f ∈ currentFillIdsOf fills \ fids :=
      of_decide_eq_true hpred
    have hmem3 := (Finset.mem_sdiff.mp hmem2).1
    rw [hstr] at hmem3
    exact not_mem_currentFillIdsOf_empty fills hmem3
  · cases fills with
    | nil => cases hf
    | cons g t =>
      show strTid f ∉ currentFillIdsOf (g :: t)
      rw [hstr]
      exact not_mem_currentFillIdsOf_empty _

/-- Witness for C5 at the concrete state from the spec example: fill id
101 already seen, current fills 101 and 102. -/
theorem new_fills_notified_witness :
    (check_fills stSeen101 [mkFill (some "101"), mkFill (some "102")]).1
      = [mkFill (some "101"), mkFill (some "102")].filter (fun f =>
          decide (strTid f ∈
            currentFillIdsOf [mkFill (some "101"), mkFill (some "102")] \
              stSeen101.previous_fills_ids)) ∧
    ∀ f ∈ [mkFill (some "101"), mkFill (some "102")],
      truthyTid f.tid = none →
      f ∉ (check_fills stSeen101
            [mkFill (some "101"), mkFill (some "102")]).1 ∧
      strTid f ∉ (check_fills stSeen101
            [mkFill (some "101"), mkFill (some "102")]).2.previous_fills_ids :=
  new_fills_notified stSeen101 [mkFill (some "101"), mkFill (some "102")] rfl
